import Mathlib

/-!
# Verification of the Quantum Probability Sampling Engine

Shallow embedding of the electron-orbital sampling core
(`js/constants.js`, `js/math-utils.js` / `three-setup.js`,
`js/quantum-mechanics.js` / `particle-sampler.js`).

Modelling conventions:
* JS `number` values are embedded as real numbers (`ℝ`); every value of type
  `ℝ` is finite, so `isFinite(x) ? x : 0` is the identity and `NaN`/`Infinity`
  branches are unreachable in the model.
* Quantum numbers at validated entry points are embedded as `ℚ`, so that the
  source's `Number.isInteger` test (`den = 1`) is expressible; once validation
  has passed they are integers and the numeric core receives their floors.
* `Math.random()` is an explicit stream `g : ℕ → ℝ` together with a threaded
  index counting how many draws have been consumed, mirroring the source's
  sequential draw order (including branches that consume no draw).
* The `throw` in `validateQuantumNumbers` surfaces as `Option`:
  `generateOrbitalParticles` returns `none` exactly when validation fails.
* The process-wide memoized factorial cache is an explicit `Cache` state
  threaded through the `...S` variants of the wave-function evaluators.
-/

/-! ## Constants (`js/constants.js`) -/

/-- `CONSTANTS.BOHR_RADIUS` (Angstroms). -/
noncomputable def BOHR_RADIUS : ℝ := 0.529

/-- `CONSTANTS.SCALE_FACTOR`. -/
noncomputable def SCALE_FACTOR : ℝ := 2.0

/-- `CONSTANTS.MIN_PARTICLE_COUNT`. -/
def MIN_PARTICLE_COUNT : ℤ := 5000

/-- `CONSTANTS.MAX_PARTICLE_COUNT`. -/
def MAX_PARTICLE_COUNT : ℤ := 1000000

/-! ## `validateQuantumNumbers` (`js/math-utils.js`) -/

/-- `validateQuantumNumbers(n, l, m)`: `true` iff no branch throws.
The source throws when `n < 1 || !Number.isInteger(n)`, then when
`l < 0 || l >= n || !Number.isInteger(l)`, then when
`Math.abs(m) > l || !Number.isInteger(m)`.  A rational is an integer iff its
denominator is `1`. -/
def validateQuantumNumbers (n l m : ℚ) : Bool :=
  if n < 1 ∨ n.den ≠ 1 then false
  else if l < 0 ∨ n ≤ l ∨ l.den ≠ 1 then false
  else if |m| > l ∨ m.den ≠ 1 then false
  else true

/-! ## Factorial with memoization cache (`js/math-utils.js`) -/

/-- The process-wide `factorialCache` object: a partial map from argument to
stored value. -/
def Cache := ℤ → Option ℝ

/-- The multiplication loop `for (i = 2; i <= n; i++) result *= i` of
`factorial`, started from `result = 1` (multiplying by `1` first does not
change the product). -/
def factLoop : ℕ → ℝ
  | 0 => 1
  | k + 1 => factLoop k * (k + 1)

/-- A cache state is valid when every stored entry is the value the
computation loop would produce for that key.  Every state reachable from the
empty cache satisfies this, because the source only ever stores
freshly computed results. -/
def ValidCache (c : Cache) : Prop :=
  ∀ k v, c k = some v → v = factLoop k.toNat

/-- `factorial(n)` with the memo cache threaded explicitly.  Mirrors the
source order: `n < 0` returns `0`; `n === 0 || n === 1` returns `1`; a truthy
cached entry (`if (factorialCache[n])`, false for a stored `0`) is returned;
otherwise the loop result is computed and stored. -/
noncomputable def factorialS (c : Cache) (n : ℤ) : ℝ × Cache :=
  if n < 0 then (0, c)
  else if n = 0 ∨ n = 1 then (1, c)
  else
    match c n with
    | some v =>
      if v = 0 then
        (factLoop n.toNat, fun j => if j = n then some (factLoop n.toNat) else c j)
      else (v, c)
    | none =>
      (factLoop n.toNat, fun j => if j = n then some (factLoop n.toNat) else c j)

/-- `factorial(n)` as a pure value (what any call returns, independently of
the cache state — see `c8_pure_functions_cache_independent`). -/
def factorial (n : ℤ) : ℝ :=
  if n < 0 then 0 else factLoop n.toNat

/-- `logFactorial(n)` for `n ≥ 0`: `0` for `n ∈ {0, 1}`, else `Σ ln(i)` for
`i = 2..n`.  (The source returns `-Infinity` for `n < 0`; inside the engine it
is only ever called on validated non-negative arguments, which is the domain
embedded here.) -/
noncomputable def logFactorial (n : ℕ) : ℝ :=
  ∑ i ∈ Finset.Icc 2 n, Real.log i

/-! ## Associated Laguerre polynomial (`js/math-utils.js`) -/

/-- One iteration of the `laguerrePolynomial` loop body at loop counter `i`:
`L_current = ((2i - 1 + k - x) * L_prev1 - (i - 1 + k) * L_prev2) / i`,
followed by the shift of the state pair `(L_prev2, L_prev1)`. -/
noncomputable def laguerreStep (k : ℤ) (x : ℝ) (i : ℕ) (s : ℝ × ℝ) : ℝ × ℝ :=
  (s.2, ((2 * (i : ℝ) - 1 + (k : ℝ) - x) * s.2 - ((i : ℝ) - 1 + (k : ℝ)) * s.1) / (i : ℝ))

/-- State of the `laguerrePolynomial` loop after `j` iterations: the loop
starts from `(L_prev2, L_prev1) = (1, 1 + k - x)` and iteration `j` runs the
body at `i = j + 2`. -/
noncomputable def laguerreIter (k : ℤ) (x : ℝ) : ℕ → ℝ × ℝ
  | 0 => (1, 1 + (k : ℝ) - x)
  | j + 1 => laguerreStep k x (j + 2) (laguerreIter k x j)

/-- `laguerrePolynomial(n, k, x)`: `1` for `n = 0`, `1 + k - x` for `n = 1`,
otherwise the value computed by the three-term recurrence loop for
`i = 2..n`. -/
noncomputable def laguerrePolynomial (n : ℕ) (k : ℤ) (x : ℝ) : ℝ :=
  match n with
  | 0 => 1
  | 1 => 1 + (k : ℝ) - x
  | j + 2 => (laguerreIter k x (j + 1)).2

/-- The associated-Laguerre three-term recurrence exactly as the spec words
it: `L₀ = 1`, `L₁ = 1 + k − x`,
`Lᵢ = [(2i − 1 + k − x)·Lᵢ₋₁ − (i − 1 + k)·Lᵢ₋₂]/i` for `i ≥ 2`.
Stated separately from the source loop so that claim C4 can compare the
two. -/
noncomputable def laguerreRecurrence (k : ℤ) (x : ℝ) : ℕ → ℝ
  | 0 => 1
  | 1 => 1 + (k : ℝ) - x
  | j + 2 =>
    ((2 * ((j : ℝ) + 2) - 1 + (k : ℝ) - x) * laguerreRecurrence k x (j + 1) -
      (((j : ℝ) + 2) - 1 + (k : ℝ)) * laguerreRecurrence k x j) / ((j : ℝ) + 2)

/-! ## Associated Legendre polynomial (`js/math-utils.js`) -/

/-- The `P_m^m` seed loop of `legendrePolynomial`: starting from `pmm = 1.0`,
iteration `i = 1..absM` performs `pmm *= -fact * somx2; fact += 2.0` with
`fact` running through `1, 3, 5, ...`. -/
noncomputable def legendrePmm (somx2 : ℝ) : ℕ → ℝ
  | 0 => 1
  | i + 1 => legendrePmm somx2 i * (-(2 * (i : ℝ) + 1) * somx2)

/-- The upward recurrence loop of `legendrePolynomial`: after `j` iterations
the pair holds `(pmm, pmmp1)`; iteration `j` runs the body at
`ll = absM + 2 + j`:
`pll = (x(2ll - 1) pmmp1 - (ll + absM - 1) pmm) / (ll - absM)`. -/
noncomputable def legendreIter (x : ℝ) (absM : ℕ) (p0 p1 : ℝ) : ℕ → ℝ × ℝ
  | 0 => (p0, p1)
  | j + 1 =>
    let s := legendreIter x absM p0 p1 j
    let ll : ℕ := absM + 2 + j
    (s.2, (x * (2 * (ll : ℝ) - 1) * s.2 - ((ll : ℝ) + (absM : ℝ) - 1) * s.1) /
      ((ll : ℝ) - (absM : ℝ)))

/-- `legendrePolynomial(l, m, x)`: returns `0` when `|m| > l`; builds
`P_{|m|}^{|m|}`, then `P_{|m|+1}^{|m|}`, then iterates up to `P_l^{|m|}`. -/
noncomputable def legendrePolynomial (l m : ℤ) (x : ℝ) : ℝ :=
  let absM := m.natAbs
  if (absM : ℤ) > l then 0
  else
    let somx2 := Real.sqrt ((1 - x) * (1 + x))
    let pmm := legendrePmm somx2 absM
    if l = (absM : ℤ) then pmm
    else
      let pmmp1 := x * (2 * (absM : ℝ) + 1) * pmm
      if l = (absM : ℤ) + 1 then pmmp1
      else (legendreIter x absM pmm pmmp1 (l.toNat - absM - 1)).2

/-! ## Real spherical harmonic (`js/math-utils.js`) -/

/-- `sphericalHarmonic(l, m, theta, phi)` with the factorial cache threaded:
`norm = sqrt((2l+1)·(l-|m|)! / (4π·(l+|m|)!))`, times
`legendrePolynomial(l, |m|, cos θ)`, times the angular factor
(`1` for `m = 0`, `√2·cos(mφ)` for `m > 0`, `√2·sin(|m|φ)` for `m < 0`). -/
noncomputable def sphericalHarmonicS (c : Cache) (l m : ℤ) (theta phi : ℝ) : ℝ × Cache :=
  let absM : ℤ := |m|
  let f1 := factorialS c (l - absM)
  let f2 := factorialS f1.2 (l + absM)
  let norm := Real.sqrt ((2 * (l : ℝ) + 1) * f1.1 / (4 * Real.pi * f2.1))
  let legendre := legendrePolynomial l absM (Real.cos theta)
  let angular : ℝ :=
    if m = 0 then 1
    else if m > 0 then Real.sqrt 2 * Real.cos ((m : ℝ) * phi)
    else Real.sqrt 2 * Real.sin ((absM : ℝ) * phi)
  (norm * legendre * angular, f2.2)

/-- `sphericalHarmonic` as the value a call starting from an empty cache
returns. -/
noncomputable def sphericalHarmonic (l m : ℤ) (theta phi : ℝ) : ℝ :=
  (sphericalHarmonicS (fun _ => none) l m theta phi).1

/-! ## Wave-function evaluator (`js/quantum-mechanics.js`) -/

/-- The main arithmetic of `radialWaveFunction` for validated quantum numbers
and `r > 0` (the `isFinite` guard on the result is the identity on `ℝ`):
`ρ = 2Zr/(n·a₀)` with `Z = 1`, log-space normalization constant,
`norm·e^(-ρ/2)·ρ^l·L_{n-l-1}^{2l+1}(ρ)`. -/
noncomputable def radialMain (n l : ℤ) (r : ℝ) : ℝ :=
  let Z : ℝ := 1
  let a0 : ℝ := BOHR_RADIUS
  let rho := (2 * Z * r) / ((n : ℝ) * a0)
  let logNorm := 0.5 * (3 * Real.log (2 * Z / ((n : ℝ) * a0)) +
    logFactorial (n - l - 1).toNat - Real.log (2 * (n : ℝ)) - logFactorial (n + l).toNat)
  let norm := Real.exp logNorm
  let expTerm := Real.exp (-rho / 2)
  let powerTerm := rho ^ l.toNat
  let laguerre := laguerrePolynomial (n - l - 1).toNat (2 * l + 1) rho
  norm * expTerm * powerTerm * laguerre

/-- `radialWaveFunction(n, l, r)`: the thrown validation error is caught by
the function's own `try`/`catch` and becomes `0`; `r < 0` gives `0`; `r = 0`
gives `1` for `l = 0` and `0` otherwise; otherwise the main formula. -/
noncomputable def radialWaveFunction (n l : ℚ) (r : ℝ) : ℝ :=
  if validateQuantumNumbers n l 0 = true then
    if r < 0 then 0
    else if r = 0 then (if l = 0 then 1 else 0)
    else radialMain ⌊n⌋ ⌊l⌋ r
  else 0

/-- `radialWaveFunction` never touches the factorial cache (it uses
`logFactorial`); its stateful signature returns the state unchanged. -/
noncomputable def radialWaveFunctionS (c : Cache) (n l : ℚ) (r : ℝ) : ℝ × Cache :=
  (radialWaveFunction n l r, c)

/-- `angularWaveFunction(l, m, theta, phi)`: delegates to the real spherical
harmonic (the surrounding `try`/`catch` has no effect in the model). -/
noncomputable def angularWaveFunctionS (c : Cache) (l m : ℚ) (theta phi : ℝ) : ℝ × Cache :=
  sphericalHarmonicS c ⌊l⌋ ⌊m⌋ theta phi

/-- `waveFunction(n, l, m, r, theta, phi)` = radial × angular after
validation (a validation throw is caught and becomes `0`; the `isFinite`
clamp is the identity on `ℝ`), with the factorial cache threaded. -/
noncomputable def waveFunctionS (c : Cache) (n l m : ℚ) (r theta phi : ℝ) : ℝ × Cache :=
  if validateQuantumNumbers n l m = true then
    let rad := radialWaveFunctionS c n l r
    let ang := angularWaveFunctionS rad.2 l m theta phi
    (rad.1 * ang.1, ang.2)
  else (0, c)

/-- `probabilityDensity(n, l, m, r, theta, phi) = ψ·ψ`, cache threaded. -/
noncomputable def probabilityDensityS (c : Cache) (n l m : ℚ) (r theta phi : ℝ) : ℝ × Cache :=
  let psi := waveFunctionS c n l m r theta phi
  (psi.1 * psi.1, psi.2)

/-- `waveFunction` as the value of a call starting from an empty cache. -/
noncomputable def waveFunction (n l m : ℚ) (r theta phi : ℝ) : ℝ :=
  (waveFunctionS (fun _ => none) n l m r theta phi).1

/-- `probabilityDensity` as the value of a call starting from an empty
cache. -/
noncomputable def probabilityDensity (n l m : ℚ) (r theta phi : ℝ) : ℝ :=
  (probabilityDensityS (fun _ => none) n l m r theta phi).1

/-! ## CDF particle sampler (`js/particle-sampler.js`) -/

/-- The stream of `Math.random()` outputs. -/
def Rng := ℕ → ℝ

/-- The linear CDF scan: first index `i` (starting at `start`, scanning
`fuel` entries) with `rand ≤ f i`; `none` when the scan falls through. -/
noncomputable def firstLeAux (f : ℕ → ℝ) (rand : ℝ) : ℕ → ℕ → Option ℕ
  | _, 0 => none
  | i, fuel + 1 => if rand ≤ f i then some i else firstLeAux f rand (i + 1) fuel

/-- Per-grid-point radial probability of `sampleRadius`:
`r = minR + (i/resolution)·(maxR - minR)`, `prob = r·r·R·R` with
`R = radialWaveFunction(n, l, r)`. -/
noncomputable def radialProb (n l : ℤ) (res : ℕ) (i : ℕ) : ℝ :=
  let maxR := 3 * (n : ℝ) ^ 2 * BOHR_RADIUS
  let minR := 0.01 * BOHR_RADIUS
  let r := minR + ((i : ℝ) / (res : ℝ)) * (maxR - minR)
  let R := radialWaveFunction (n : ℚ) (l : ℚ) r
  r * r * (R * R)

/-- Entry `i` of the accumulated radial CDF array (the running sum pushed by
the build loop). -/
noncomputable def radialCdfEntry (n l : ℤ) (res : ℕ) (i : ℕ) : ℝ :=
  ∑ j ∈ Finset.range (i + 1), radialProb n l res j

/-- The total accumulated radial sum (`sum` after the build loop). -/
noncomputable def radialCdfSum (n l : ℤ) (res : ℕ) : ℝ :=
  ∑ j ∈ Finset.range res, radialProb n l res j

/-- `sampleRadius(n, l, resolution)`: builds the radial CDF over
`[0.01·a₀, 3n²·a₀]`; a degenerate total sum returns `maxR/2` without
consuming a draw; otherwise one uniform draw is scanned against the
normalized CDF, returning the first grid radius whose cumulative value is
`≥` the draw, or `maxR` if the scan falls through. -/
noncomputable def sampleRadius (n l : ℤ) (res : ℕ) (g : Rng) (k : ℕ) : ℝ × ℕ :=
  let maxR := 3 * (n : ℝ) ^ 2 * BOHR_RADIUS
  let minR := 0.01 * BOHR_RADIUS
  if radialCdfSum n l res = 0 then (maxR / 2, k)
  else
    let rand := g k
    match firstLeAux (fun i => radialCdfEntry n l res i / radialCdfSum n l res) rand 0 res with
    | some i => (minR + ((i : ℝ) / (res : ℝ)) * (maxR - minR), k + 1)
    | none => (maxR, k + 1)

/-- Per-grid-point polar probability of `sampleTheta`:
`theta = ε + (i/resolution)·(π - 2ε)` with `ε = 0.001`,
`prob = legendre·legendre·sin(theta)` with
`legendre = legendrePolynomial(l, |m|, cos theta)`. -/
noncomputable def thetaProb (l m : ℤ) (res : ℕ) (i : ℕ) : ℝ :=
  let theta := 0.001 + ((i : ℝ) / (res : ℝ)) * (Real.pi - 2 * 0.001)
  let legendre := legendrePolynomial l |m| (Real.cos theta)
  legendre * legendre * Real.sin theta

/-- Entry `i` of the accumulated polar CDF array. -/
noncomputable def thetaCdfEntry (l m : ℤ) (res : ℕ) (i : ℕ) : ℝ :=
  ∑ j ∈ Finset.range (i + 1), thetaProb l m res j

/-- The total accumulated polar sum. -/
noncomputable def thetaCdfSum (l m : ℤ) (res : ℕ) : ℝ :=
  ∑ j ∈ Finset.range res, thetaProb l m res j

/-- `sampleTheta(l, m, resolution)`: CDF sampling over `[ε, π - ε]`; a
degenerate sum returns `π/2` (the equator) without consuming a draw; a
fall-through of the scan also returns `π/2`. -/
noncomputable def sampleTheta (l m : ℤ) (res : ℕ) (g : Rng) (k : ℕ) : ℝ × ℕ :=
  if thetaCdfSum l m res = 0 then (Real.pi / 2, k)
  else
    let rand := g k
    match firstLeAux (fun i => thetaCdfEntry l m res i / thetaCdfSum l m res) rand 0 res with
    | some i => (0.001 + ((i : ℝ) / (res : ℝ)) * (Real.pi - 2 * 0.001), k + 1)
    | none => (Real.pi / 2, k + 1)

/-- Per-grid-point azimuthal probability of `samplePhi` (`m ≠ 0` path):
`phi = (i/resolution)·2π`; `cos²(m·phi)` for `m > 0`, `sin²(|m|·phi)` for
`m < 0`. -/
noncomputable def phiProb (m : ℤ) (res : ℕ) (i : ℕ) : ℝ :=
  let phi := ((i : ℝ) / (res : ℝ)) * (2 * Real.pi)
  if m > 0 then Real.cos ((m : ℝ) * phi) * Real.cos ((m : ℝ) * phi)
  else Real.sin ((m.natAbs : ℝ) * phi) * Real.sin ((m.natAbs : ℝ) * phi)

/-- Entry `i` of the accumulated azimuthal CDF array. -/
noncomputable def phiCdfEntry (m : ℤ) (res : ℕ) (i : ℕ) : ℝ :=
  ∑ j ∈ Finset.range (i + 1), phiProb m res j

/-- The total accumulated azimuthal sum. -/
noncomputable def phiCdfSum (m : ℤ) (res : ℕ) : ℝ :=
  ∑ j ∈ Finset.range res, phiProb m res j

/-- `samplePhi(m, resolution)`: uniform `rand·2π` for `m = 0`; otherwise CDF
sampling over `[0, 2π)` (the degenerate-sum fallback also draws uniformly,
and a scan fall-through returns `2π/2`). -/
noncomputable def samplePhi (m : ℤ) (res : ℕ) (g : Rng) (k : ℕ) : ℝ × ℕ :=
  if m = 0 then (g k * (2 * Real.pi), k + 1)
  else if phiCdfSum m res = 0 then (g k * (2 * Real.pi), k + 1)
  else
    let rand := g k
    match firstLeAux (fun i => phiCdfEntry m res i / phiCdfSum m res) rand 0 res with
    | some i => (((i : ℝ) / (res : ℝ)) * (2 * Real.pi), k + 1)
    | none => (2 * Real.pi / 2, k + 1)

/-- A generated particle: Cartesian position and normalized probability
weight. -/
structure Particle where
  position : ℝ × ℝ × ℝ
  probability : ℝ

/-- `sphericalToCartesian(r, theta, phi)`. -/
noncomputable def sphericalToCartesian (r theta phi : ℝ) : ℝ × ℝ × ℝ :=
  (r * Real.sin theta * Real.cos phi,
   r * Real.sin theta * Real.sin phi,
   r * Real.cos theta)

/-- One iteration of the pilot pre-pass of `generateOrbitalParticles`:
sample `(r, theta, phi)` with the defaults `(1000, 500, 500)` and evaluate
the probability density there. -/
noncomputable def pilotStep (n l m : ℤ) (g : Rng) (k : ℕ) : ℝ × ℕ :=
  let rs := sampleRadius n l 1000 g k
  let ts := sampleTheta l m 500 g rs.2
  let ps := samplePhi m 500 g ts.2
  (probabilityDensity (n : ℚ) (l : ℚ) (m : ℚ) rs.1 ts.1 ps.1, ps.2)

/-- The pilot pre-pass: `i` iterations of
`if (prob > maxProb) maxProb = prob` starting from `maxProb = 0`. -/
noncomputable def pilotLoop (n l m : ℤ) (g : Rng) : ℕ → ℕ → ℝ × ℕ
  | 0, k => (0, k)
  | i + 1, k =>
    let acc := pilotLoop n l m g i k
    let st := pilotStep n l m g acc.2
    (if st.1 > acc.1 then st.1 else acc.1, st.2)

/-- One iteration of the generation loop of `generateOrbitalParticles`:
sample `(r, theta, phi)`, convert to Cartesian with `r · SCALE_FACTOR`, and
attach the weight `maxProb > 0 ? probability / maxProb : 0`. -/
noncomputable def batchStep (n l m : ℤ) (maxProb : ℝ) (g : Rng) (k : ℕ) : Particle × ℕ :=
  let rs := sampleRadius n l 1000 g k
  let ts := sampleTheta l m 500 g rs.2
  let ps := samplePhi m 500 g ts.2
  let cart := sphericalToCartesian (rs.1 * SCALE_FACTOR) ts.1 ps.1
  let prob := probabilityDensity (n : ℚ) (l : ℚ) (m : ℚ) rs.1 ts.1 ps.1
  ({ position := cart, probability := if maxProb > 0 then prob / maxProb else 0 }, ps.2)

/-- The generation loop: `i` iterations, each pushing one particle. -/
noncomputable def batchLoop (n l m : ℤ) (maxProb : ℝ) (g : Rng) :
    ℕ → ℕ → List Particle × ℕ
  | 0, k => ([], k)
  | i + 1, k =>
    let acc := batchLoop n l m maxProb g i k
    let st := batchStep n l m maxProb g acc.2
    (acc.1 ++ [st.1], st.2)

/-- `generateOrbitalParticles(n, l, m, particleCount)`: validation failure
throws (`none`); otherwise the count is clamped to
`[MIN_PARTICLE_COUNT, MAX_PARTICLE_COUNT]`, a pilot pass of
`min(100, count)` draws estimates the maximum density, and `count` particles
are generated. -/
noncomputable def generateOrbitalParticles (n l m : ℚ) (particleCount : ℤ) (g : Rng) :
    Option (List Particle) :=
  if validateQuantumNumbers n l m = true then
    let count : ℤ := max MIN_PARTICLE_COUNT (min particleCount MAX_PARTICLE_COUNT)
    let sampleSize : ℤ := min 100 count
    let pilot := pilotLoop ⌊n⌋ ⌊l⌋ ⌊m⌋ g sampleSize.toNat 0
    some (batchLoop ⌊n⌋ ⌊l⌋ ⌊m⌋ pilot.1 g count.toNat pilot.2).1
  else none

/-! ## General lemmas about the CDF scan -/

/-- A successful scan returns an index inside the scanned window. -/
theorem firstLeAux_bound {f : ℕ → ℝ} {rand : ℝ} :
    ∀ fuel i j, firstLeAux f rand i fuel = some j → i ≤ j ∧ j < i + fuel := by
  intro fuel
  induction fuel with
  | zero => intro i j h; simp [firstLeAux] at h
  | succ fuel ih =>
    intro i j h
    rw [firstLeAux] at h
    by_cases hle : rand ≤ f i
    · rw [if_pos hle] at h
      cases h
      omega
    · rw [if_neg hle] at h
      have := ih (i + 1) j h
      omega

/-- If the draw is at or below the first scanned entry, the scan stops
immediately. -/
theorem firstLeAux_hit {f : ℕ → ℝ} {rand : ℝ} {i fuel : ℕ}
    (h : rand ≤ f i) (hf : 0 < fuel) : firstLeAux f rand i fuel = some i := by
  cases fuel with
  | zero => omega
  | succ fuel => rw [firstLeAux, if_pos h]

/-- The scan returns exactly the first index satisfying the test. -/
theorem firstLeAux_exact {f : ℕ → ℝ} {rand : ℝ} :
    ∀ fuel i j, i ≤ j → j < i + fuel →
      (∀ t, i ≤ t → t < j → ¬ rand ≤ f t) → rand ≤ f j →
      firstLeAux f rand i fuel = some j := by
  intro fuel
  induction fuel with
  | zero => intro i j h1 h2; omega
  | succ fuel ih =>
    intro i j h1 h2 hlt hj
    rw [firstLeAux]
    rcases Nat.eq_or_lt_of_le h1 with rfl | hij
    · rw [if_pos hj]
    · rw [if_neg (hlt i le_rfl hij)]
      exact ih (i + 1) j hij (by omega) (fun t ht1 ht2 => hlt t (by omega) ht2) hj

/-! ## Nonnegativity and monotonicity of the CDF tables -/

/-- Every radial grid probability is a product of squares, hence
nonnegative. -/
theorem radialProb_nonneg (n l : ℤ) (res i : ℕ) : 0 ≤ radialProb n l res i :=
  mul_nonneg (mul_self_nonneg _) (mul_self_nonneg _)

/-- The normalized grid fraction `i/res` lies in `[0, 1]` when `i ≤ res`. -/
theorem gridFrac_mem {i res : ℕ} (h : i ≤ res) :
    0 ≤ (i : ℝ) / (res : ℝ) ∧ (i : ℝ) / (res : ℝ) ≤ 1 := by
  constructor
  · positivity
  · rcases Nat.eq_zero_or_pos res with h0 | h0
    · subst h0; simp
    · rw [div_le_one (by exact_mod_cast h0)]
      exact_mod_cast h

/-- The polar grid point `ε + (i/res)(π - 2ε)` lies in `[0, π]` when
`i ≤ res`. -/
theorem thetaGrid_mem {i res : ℕ} (h : i ≤ res) :
    0 ≤ 0.001 + ((i : ℝ) / (res : ℝ)) * (Real.pi - 2 * 0.001) ∧
    0.001 + ((i : ℝ) / (res : ℝ)) * (Real.pi - 2 * 0.001) ≤ Real.pi := by
  obtain ⟨h0, h1⟩ := gridFrac_mem h
  have hpi : (3 : ℝ) < Real.pi := Real.pi_gt_three
  have hfac : (0 : ℝ) ≤ Real.pi - 2 * 0.001 := by nlinarith
  have hprod : ((i : ℝ) / (res : ℝ)) * (Real.pi - 2 * 0.001) ≤ 1 * (Real.pi - 2 * 0.001) :=
    mul_le_mul_of_nonneg_right h1 hfac
  constructor
  · nlinarith
  · nlinarith

/-- Every polar grid probability is a square times `sin θ` with `θ ∈ [0, π]`,
hence nonnegative (for grid indices `i ≤ res`). -/
theorem thetaProb_nonneg (l m : ℤ) {res i : ℕ} (h : i ≤ res) : 0 ≤ thetaProb l m res i := by
  obtain ⟨ha, hb⟩ := @thetaGrid_mem i res h
  exact mul_nonneg (mul_self_nonneg _) (Real.sin_nonneg_of_nonneg_of_le_pi ha hb)

/-- Every azimuthal grid probability is a square, hence nonnegative. -/
theorem phiProb_nonneg (m : ℤ) (res i : ℕ) : 0 ≤ phiProb m res i := by
  unfold phiProb
  split <;> exact mul_self_nonneg _

/-- The accumulated radial CDF is monotone. -/
theorem radialCdfEntry_mono (n l : ℤ) (res : ℕ) {i j : ℕ} (hij : i ≤ j) :
    radialCdfEntry n l res i ≤ radialCdfEntry n l res j := by
  apply Finset.sum_le_sum_of_subset_of_nonneg (Finset.range_subset.mpr (by omega))
  intro t _ _
  exact radialProb_nonneg n l res t

/-- The accumulated polar CDF is monotone (within the grid). -/
theorem thetaCdfEntry_mono (l m : ℤ) (res : ℕ) {i j : ℕ} (hij : i ≤ j) (hj : j ≤ res) :
    thetaCdfEntry l m res i ≤ thetaCdfEntry l m res j := by
  apply Finset.sum_le_sum_of_subset_of_nonneg (Finset.range_subset.mpr (by omega))
  intro t ht _
  exact thetaProb_nonneg l m (by have := Finset.mem_range.mp ht; omega)

/-- The accumulated azimuthal CDF is monotone. -/
theorem phiCdfEntry_mono (m : ℤ) (res : ℕ) {i j : ℕ} (hij : i ≤ j) :
    phiCdfEntry m res i ≤ phiCdfEntry m res j := by
  apply Finset.sum_le_sum_of_subset_of_nonneg (Finset.range_subset.mpr (by omega))
  intro t _ _
  exact phiProb_nonneg m res t

/-- The total radial sum is nonnegative. -/
theorem radialCdfSum_nonneg (n l : ℤ) (res : ℕ) : 0 ≤ radialCdfSum n l res :=
  Finset.sum_nonneg fun t _ => radialProb_nonneg n l res t

/-- The total polar sum is nonnegative. -/
theorem thetaCdfSum_nonneg (l m : ℤ) (res : ℕ) : 0 ≤ thetaCdfSum l m res :=
  Finset.sum_nonneg fun t ht => thetaProb_nonneg l m (by have := Finset.mem_range.mp ht; omega)

/-- The total azimuthal sum is nonnegative. -/
theorem phiCdfSum_nonneg (m : ℤ) (res : ℕ) : 0 ≤ phiCdfSum m res :=
  Finset.sum_nonneg fun t _ => phiProb_nonneg m res t

/-! ## Claim C2 -/

/-- Claim C2: for every `(n, l, m)` violating the quantum-number invariants
(`n < 1`, or `l` outside `[0, n-1]`, or `|m| > l`, or any of them
non-integer), `generateOrbitalParticles` surfaces the validation failure to
the caller (`none`) and produces no particles. -/
theorem c2_invalid_state_rejected (n l m : ℚ) (pc : ℤ) (g : Rng)
    (h : n < 1 ∨ n.den ≠ 1 ∨ l < 0 ∨ n ≤ l ∨ l.den ≠ 1 ∨ l < |m| ∨ m.den ≠ 1) :
    generateOrbitalParticles n l m pc g = none := by
  have hv : validateQuantumNumbers n l m = false := by
    unfold validateQuantumNumbers
    split_ifs with h1 h2 h3
    · rfl
    · rfl
    · rfl
    · exfalso
      push_neg at h1 h2 h3
      obtain ⟨hn1, hn2⟩ := h1
      obtain ⟨hl1, hl2, hl3⟩ := h2
      obtain ⟨hm1, hm2⟩ := h3
      rcases h with h | h | h | h | h | h | h
      · linarith
      · exact h hn2
      · linarith
      · linarith
      · exact h hl3
      · linarith
      · exact h hm2
  simp [generateOrbitalParticles, hv]

/-- Witness for C2 at the spec's end-to-end scenario 3: `(n, l, m) = (1, 1, 0)`. -/
theorem c2_invalid_state_rejected_witness :
    generateOrbitalParticles 1 1 0 5000 (fun _ => 0) = none :=
  c2_invalid_state_rejected 1 1 0 5000 (fun _ => 0)
    (Or.inr (Or.inr (Or.inr (Or.inl (by norm_num)))))

/-! ## Claim C3 -/

/-- Claim C3: for every valid `(n, l)`, `radialWaveFunction` returns `0` for
every `r < 0`, and at `r = 0` it returns `1` when `l = 0` and `0` when
`l ≠ 0`. -/
theorem c3_radial_at_origin (n l : ℚ) (h : validateQuantumNumbers n l 0 = true) :
    (∀ r : ℝ, r < 0 → radialWaveFunction n l r = 0) ∧
    radialWaveFunction n l 0 = (if l = 0 then 1 else 0) := by
  constructor
  · intro r hr
    unfold radialWaveFunction
    rw [if_pos h, if_pos hr]
  · unfold radialWaveFunction
    rw [if_pos h, if_neg (lt_irrefl (0 : ℝ)), if_pos rfl]

/-- Witness for C3 at `(n, l) = (2, 1)` (an `l > 0` state) and `r = -1`. -/
theorem c3_radial_at_origin_witness :
    validateQuantumNumbers 2 1 0 = true ∧
    radialWaveFunction 2 1 (-1) = 0 ∧ radialWaveFunction 2 1 0 = 0 := by
  refine ⟨by decide, (c3_radial_at_origin 2 1 (by decide)).1 (-1) (by norm_num), ?_⟩
  have h2 := (c3_radial_at_origin 2 1 (by decide)).2
  simpa using h2

/-! ## Claim C4 -/

/-- The source loop state is the pair of consecutive recurrence values. -/
theorem laguerreIter_eq_recurrence (k : ℤ) (x : ℝ) :
    ∀ j, laguerreIter k x j = (laguerreRecurrence k x j, laguerreRecurrence k x (j + 1)) := by
  intro j
  induction j with
  | zero => rfl
  | succ j ih =>
    rw [laguerreIter, ih, laguerreStep]
    show (_, _) = (_, _)
    rw [laguerreRecurrence]
    push_cast
    norm_num

/-- Claim C4: for every integer `n ≥ 0`, integer `k`, and real `x`,
`laguerrePolynomial(n, k, x)` equals the value at index `n` of the three-term
recurrence `L₀ = 1`, `L₁ = 1 + k - x`,
`Lᵢ = [(2i - 1 + k - x)·Lᵢ₋₁ - (i - 1 + k)·Lᵢ₋₂]/i`. -/
theorem c4_laguerre_matches_recurrence (n : ℕ) (k : ℤ) (x : ℝ) :
    laguerrePolynomial n k x = laguerreRecurrence k x n := by
  match n with
  | 0 => rfl
  | 1 => rfl
  | j + 2 =>
    show (laguerreIter k x (j + 1)).2 = _
    rw [laguerreIter_eq_recurrence]

/-! ## Claim C5 -/

/-- Counterexample to C5 as stated: at `(n, l) = (1, 0)` with `resolution = 0`
the accumulated sum is degenerate (zero), yet the returned value is not the
midpoint `(0.01·a₀ + 3n²·a₀)/2` of the sampling range. -/
theorem c5_midpoint_counterexample :
    radialCdfSum 1 0 0 = 0 ∧
    (sampleRadius 1 0 0 (fun _ => 0) 0).1 ≠
      (0.01 * BOHR_RADIUS + 3 * (1 : ℝ) ^ 2 * BOHR_RADIUS) / 2 := by
  have h : radialCdfSum 1 0 0 = 0 := by simp [radialCdfSum]
  refine ⟨h, ?_⟩
  unfold sampleRadius
  rw [if_pos h]
  norm_num [BOHR_RADIUS]

/-- Claim C5 (amended): when the accumulated radial CDF sum is degenerate,
`sampleRadius` returns `maxR/2 = 3n²·a₀/2` — the midpoint of `[0, 3n²·a₀]`,
not of `[0.01·a₀, 3n²·a₀]` — consuming no draw and propagating no error. -/
theorem c5_degenerate_sum_fallback (n l : ℤ) (res : ℕ) (g : Rng) (k : ℕ)
    (h : radialCdfSum n l res = 0) :
    sampleRadius n l res g k = (3 * (n : ℝ) ^ 2 * BOHR_RADIUS / 2, k) := by
  unfold sampleRadius
  rw [if_pos h]

/-- Witness for the amended C5: `resolution = 0` makes the accumulated sum
`0`. -/
theorem c5_degenerate_sum_fallback_witness :
    radialCdfSum 1 0 0 = 0 ∧
    sampleRadius 1 0 0 (fun _ => 0) 0 = (3 * (1 : ℝ) ^ 2 * BOHR_RADIUS / 2, 0) := by
  have h : radialCdfSum 1 0 0 = 0 := by simp [radialCdfSum]
  exact ⟨h, by exact_mod_cast c5_degenerate_sum_fallback 1 0 0 (fun _ => 0) 0 h⟩

/-! ## Claim C6 -/

/-- Claim C6: for valid quantum numbers and any `resolution ≥ 1`, each of the
three CDF tables is monotonically non-decreasing, both as accumulated and —
in the non-degenerate branch — after normalization by the total sum. -/
theorem c6_cdf_tables_monotone (n l m : ℤ) (res : ℕ) (i j : ℕ)
    (hn : 1 ≤ n) (hl0 : 0 ≤ l) (hln : l < n) (hm : |m| ≤ l)
    (hres : 1 ≤ res) (hij : i ≤ j) (hj : j < res) :
    (radialCdfEntry n l res i ≤ radialCdfEntry n l res j ∧
     thetaCdfEntry l m res i ≤ thetaCdfEntry l m res j ∧
     phiCdfEntry m res i ≤ phiCdfEntry m res j) ∧
    ((radialCdfSum n l res ≠ 0 →
       radialCdfEntry n l res i / radialCdfSum n l res ≤
         radialCdfEntry n l res j / radialCdfSum n l res) ∧
     (thetaCdfSum l m res ≠ 0 →
       thetaCdfEntry l m res i / thetaCdfSum l m res ≤
         thetaCdfEntry l m res j / thetaCdfSum l m res) ∧
     (phiCdfSum m res ≠ 0 →
       phiCdfEntry m res i / phiCdfSum m res ≤ phiCdfEntry m res j / phiCdfSum m res)) := by
  have hr := radialCdfEntry_mono n l res hij
  have ht := thetaCdfEntry_mono l m res hij (by omega)
  have hp := phiCdfEntry_mono m res hij
  refine ⟨⟨hr, ht, hp⟩, ?_, ?_, ?_⟩
  · intro hs
    have hpos : 0 < radialCdfSum n l res := (radialCdfSum_nonneg n l res).lt_of_ne (Ne.symm hs)
    exact (div_le_div_right hpos).mpr hr
  · intro hs
    have hpos : 0 < thetaCdfSum l m res := (thetaCdfSum_nonneg l m res).lt_of_ne (Ne.symm hs)
    exact (div_le_div_right hpos).mpr ht
  · intro hs
    have hpos : 0 < phiCdfSum m res := (phiCdfSum_nonneg m res).lt_of_ne (Ne.symm hs)
    exact (div_le_div_right hpos).mpr hp


/-- Witness for C6 at `(n, l, m) = (2, 1, -1)`, `resolution = 2`, indices
`0 ≤ 1`. -/
theorem c6_cdf_tables_monotone_witness :
    (radialCdfEntry 2 1 2 0 ≤ radialCdfEntry 2 1 2 1 ∧
     thetaCdfEntry 1 (-1) 2 0 ≤ thetaCdfEntry 1 (-1) 2 1 ∧
     phiCdfEntry (-1) 2 0 ≤ phiCdfEntry (-1) 2 1) ∧
    ((radialCdfSum 2 1 2 ≠ 0 →
       radialCdfEntry 2 1 2 0 / radialCdfSum 2 1 2 ≤
         radialCdfEntry 2 1 2 1 / radialCdfSum 2 1 2) ∧
     (thetaCdfSum 1 (-1) 2 ≠ 0 →
       thetaCdfEntry 1 (-1) 2 0 / thetaCdfSum 1 (-1) 2 ≤
         thetaCdfEntry 1 (-1) 2 1 / thetaCdfSum 1 (-1) 2) ∧
     (phiCdfSum (-1) 2 ≠ 0 →
       phiCdfEntry (-1) 2 0 / phiCdfSum (-1) 2 ≤ phiCdfEntry (-1) 2 1 / phiCdfSum (-1) 2)) :=
  c6_cdf_tables_monotone 2 1 (-1) 2 0 1 (by decide) (by decide) (by decide) (by decide)
    (by decide) (by decide) (by decide)

/-! ## Claim C7 -/

/-- Claim C7: for every valid `(n, l)`, every `resolution ≥ 1`, and every
random draw, `sampleRadius` — through the grid-scan path, the degenerate-sum
fallback, and the end-of-scan fallback alike — returns a radius within
`[0.01·a₀, 3n²·a₀]`. -/
theorem c7_sample_radius_in_range (n l : ℤ) (res : ℕ) (g : Rng) (k : ℕ)
    (hn : 1 ≤ n) (hl0 : 0 ≤ l) (hln : l < n) (hres : 1 ≤ res) :
    0.01 * BOHR_RADIUS ≤ (sampleRadius n l res g k).1 ∧
    (sampleRadius n l res g k).1 ≤ 3 * (n : ℝ) ^ 2 * BOHR_RADIUS := by
  have hB : (0 : ℝ) < BOHR_RADIUS := by norm_num [BOHR_RADIUS]
  have hn1 : (1 : ℝ) ≤ (n : ℝ) := by exact_mod_cast hn
  have hn2 : (1 : ℝ) ≤ (n : ℝ) ^ 2 := by nlinarith
  have hminmax : 0.01 * BOHR_RADIUS ≤ 3 * (n : ℝ) ^ 2 * BOHR_RADIUS := by nlinarith
  unfold sampleRadius
  split_ifs with hs
  · constructor
    · show 0.01 * BOHR_RADIUS ≤ 3 * (n : ℝ) ^ 2 * BOHR_RADIUS / 2
      nlinarith
    · show 3 * (n : ℝ) ^ 2 * BOHR_RADIUS / 2 ≤ 3 * (n : ℝ) ^ 2 * BOHR_RADIUS
      nlinarith
  · rcases hfe : firstLeAux
        (fun i => radialCdfEntry n l res i / radialCdfSum n l res) (g k) 0 res with _ | i
    · simp only [hfe]
      exact ⟨hminmax, le_refl _⟩
    · simp only [hfe]
      obtain ⟨-, hilt⟩ := firstLeAux_bound res 0 i hfe
      have hi : i ≤ res := by omega
      obtain ⟨hf0, hf1⟩ := gridFrac_mem hi
      have hdelta : (0 : ℝ) ≤ 3 * (n : ℝ) ^ 2 * BOHR_RADIUS - 0.01 * BOHR_RADIUS := by
        linarith
      constructor
      · show 0.01 * BOHR_RADIUS ≤ 0.01 * BOHR_RADIUS + _
        nlinarith
      · show 0.01 * BOHR_RADIUS +
          ((i : ℝ) / (res : ℝ)) * (3 * (n : ℝ) ^ 2 * BOHR_RADIUS - 0.01 * BOHR_RADIUS) ≤ _
        nlinarith [mul_le_mul_of_nonneg_right hf1 hdelta]

/-- Witness for C7 at `(n, l) = (1, 0)`, `resolution = 1`, the all-zero
stream. -/
theorem c7_sample_radius_in_range_witness :
    0.01 * BOHR_RADIUS ≤ (sampleRadius 1 0 1 (fun _ => 0) 0).1 ∧
    (sampleRadius 1 0 1 (fun _ => 0) 0).1 ≤ 3 * ((1 : ℤ) : ℝ) ^ 2 * BOHR_RADIUS :=
  c7_sample_radius_in_range 1 0 1 (fun _ => 0) 0 (by decide) (by decide) (by decide) (by decide)

/-! ## Claim C9 -/

/-- Claim C9: `legendrePolynomial` is even in its order argument — it
depends on `m` only through `|m|`, so `P(l, m, x) = P(l, -m, x)`. -/
theorem c9_legendre_even_in_order (l m : ℤ) (x : ℝ) :
    legendrePolynomial l m x = legendrePolynomial l (-m) x := by
  simp [legendrePolynomial, Int.natAbs_neg]

/-! ## Claim C8 -/

/-- The empty cache (fresh process) is valid. -/
theorem emptyCache_valid : ValidCache (fun _ => none) := by
  intro k v h
  simp at h

/-- Storing the freshly computed loop value preserves cache validity. -/
theorem cacheInsert_valid {c : Cache} (hc : ValidCache c) (n : ℤ) :
    ValidCache (fun j => if j = n then some (factLoop n.toNat) else c j) := by
  intro k v hk
  by_cases hkn : k = n
  · subst hkn
    simp at hk
    exact hk.symm
  · simp only [if_neg hkn] at hk
    exact hc k v hk

/-- On a valid cache, `factorial` returns the pure value and leaves the
cache valid. -/
theorem factorialS_valid (c : Cache) (hc : ValidCache c) (n : ℤ) :
    (factorialS c n).1 = factorial n ∧ ValidCache (factorialS c n).2 := by
  unfold factorialS factorial
  split_ifs with h1 h2
  · exact ⟨rfl, hc⟩
  · refine ⟨?_, hc⟩
    rcases h2 with rfl | rfl <;> norm_num [factLoop]
  · rcases hcn : c n with _ | v
    · exact ⟨rfl, cacheInsert_valid hc n⟩
    · dsimp only
      split_ifs with hv0
      · exact ⟨rfl, cacheInsert_valid hc n⟩
      · exact ⟨hc n v hcn, hc⟩

/-- On a valid cache, `sphericalHarmonic` returns the empty-cache value and
leaves the cache valid. -/
theorem sphericalHarmonicS_valid (c : Cache) (hc : ValidCache c) (l m : ℤ) (theta phi : ℝ) :
    (sphericalHarmonicS c l m theta phi).1 = sphericalHarmonic l m theta phi ∧
    ValidCache (sphericalHarmonicS c l m theta phi).2 := by
  obtain ⟨e1, v1⟩ := factorialS_valid c hc (l - |m|)
  obtain ⟨e2, v2⟩ := factorialS_valid _ v1 (l + |m|)
  obtain ⟨e1', v1'⟩ := factorialS_valid _ emptyCache_valid (l - |m|)
  obtain ⟨e2', v2'⟩ := factorialS_valid _ v1' (l + |m|)
  unfold sphericalHarmonic sphericalHarmonicS
  exact ⟨by simp only [e1, e2, e1', e2'], v2⟩

/-- On a valid cache, `waveFunction` returns the empty-cache value and
leaves the cache valid. -/
theorem waveFunctionS_valid (c : Cache) (hc : ValidCache c) (n l m : ℚ) (r theta phi : ℝ) :
    (waveFunctionS c n l m r theta phi).1 = waveFunction n l m r theta phi ∧
    ValidCache (waveFunctionS c n l m r theta phi).2 := by
  unfold waveFunction waveFunctionS angularWaveFunctionS radialWaveFunctionS
  split_ifs with hv
  · obtain ⟨e, v⟩ := sphericalHarmonicS_valid c hc ⌊l⌋ ⌊m⌋ theta phi
    obtain ⟨e', v'⟩ := sphericalHarmonicS_valid _ emptyCache_valid ⌊l⌋ ⌊m⌋ theta phi
    exact ⟨by simp only [e, e'], v⟩
  · exact ⟨rfl, hc⟩

/-- On a valid cache, `probabilityDensity` returns the empty-cache value and
leaves the cache valid. -/
theorem probabilityDensityS_valid (c : Cache) (hc : ValidCache c) (n l m : ℚ)
    (r theta phi : ℝ) :
    (probabilityDensityS c n l m r theta phi).1 = probabilityDensity n l m r theta phi ∧
    ValidCache (probabilityDensityS c n l m r theta phi).2 := by
  obtain ⟨e, v⟩ := waveFunctionS_valid c hc n l m r theta phi
  obtain ⟨e', v'⟩ := waveFunctionS_valid _ emptyCache_valid n l m r theta phi
  unfold probabilityDensity probabilityDensityS
  exact ⟨by simp only [e, e'], v⟩

/-- Claim C8: `radialWaveFunction` and `probabilityDensity` are
deterministic pure functions — the memoized factorial cache, in any valid
(reachable) state, never changes the value either returns. -/
theorem c8_pure_functions_cache_independent (c1 c2 : Cache)
    (h1 : ValidCache c1) (h2 : ValidCache c2) (n l m : ℚ) (r theta phi : ℝ) :
    (radialWaveFunctionS c1 n l r).1 = (radialWaveFunctionS c2 n l r).1 ∧
    (probabilityDensityS c1 n l m r theta phi).1 =
      (probabilityDensityS c2 n l m r theta phi).1 := by
  refine ⟨rfl, ?_⟩
  rw [(probabilityDensityS_valid c1 h1 n l m r theta phi).1,
    (probabilityDensityS_valid c2 h2 n l m r theta phi).1]

/-- A non-empty valid cache state, as reached after a call computed `2!`. -/
noncomputable def cacheWithTwo : Cache := fun k => if k = 2 then some 2 else none

/-- `cacheWithTwo` stores exactly the loop value of `2!`. -/
theorem cacheWithTwo_valid : ValidCache cacheWithTwo := by
  intro k v h
  unfold cacheWithTwo at h
  split_ifs at h with hk
  · simp only [Option.some.injEq] at h
    subst hk
    rw [← h]
    norm_num [factLoop]

/-- Witness for C8: the empty cache versus a cache already holding `2!`, at
`(n, l, m) = (2, 1, 1)`. -/
theorem c8_pure_functions_cache_independent_witness :
    ValidCache (fun _ => none) ∧ ValidCache cacheWithTwo ∧
    ((radialWaveFunctionS (fun _ => none) 2 1 1).1 =
       (radialWaveFunctionS cacheWithTwo 2 1 1).1 ∧
     (probabilityDensityS (fun _ => none) 2 1 1 1 1 1).1 =
       (probabilityDensityS cacheWithTwo 2 1 1 1 1 1).1) :=
  ⟨emptyCache_valid, cacheWithTwo_valid,
    c8_pure_functions_cache_independent _ _ emptyCache_valid cacheWithTwo_valid 2 1 1 1 1 1⟩

/-! ## Generic facts about the generation loops -/

/-- The probability density is a square, hence nonnegative. -/
theorem probabilityDensity_nonneg (n l m : ℚ) (r theta phi : ℝ) :
    0 ≤ probabilityDensity n l m r theta phi :=
  mul_self_nonneg _

/-- The generation loop produces exactly as many particles as iterations. -/
theorem batchLoop_length (n l m : ℤ) (p : ℝ) (g : Rng) :
    ∀ i k, (batchLoop n l m p g i k).1.length = i := by
  intro i
  induction i with
  | zero => intro k; rfl
  | succ i ih =>
    intro k
    simp [batchLoop, ih k]

/-- Every weight produced by the generation loop is nonnegative. -/
theorem batchLoop_weight_nonneg (n l m : ℤ) (p : ℝ) (g : Rng) :
    ∀ i k, ∀ q ∈ (batchLoop n l m p g i k).1, 0 ≤ q.probability := by
  intro i
  induction i with
  | zero => intro k q hq; simp [batchLoop] at hq
  | succ i ih =>
    intro k q hq
    simp only [batchLoop, List.mem_append, List.mem_singleton] at hq
    rcases hq with hq | rfl
    · exact ih k q hq
    · show 0 ≤ (batchStep n l m p g _).1.probability
      unfold batchStep
      dsimp only
      split_ifs with hp
      · exact div_nonneg (probabilityDensity_nonneg _ _ _ _ _ _) (le_of_lt hp)
      · exact le_refl 0

/-- With a zero pilot maximum the guard takes the `else` branch: every
weight is `0`. -/
theorem batchLoop_weight_zero (n l m : ℤ) (g : Rng) :
    ∀ i k, ∀ q ∈ (batchLoop n l m 0 g i k).1, q.probability = 0 := by
  intro i
  induction i with
  | zero => intro k q hq; simp [batchLoop] at hq
  | succ i ih =>
    intro k q hq
    simp only [batchLoop, List.mem_append, List.mem_singleton] at hq
    rcases hq with hq | rfl
    · exact ih k q hq
    · show (batchStep n l m 0 g _).1.probability = 0
      unfold batchStep
      dsimp only
      rw [if_neg (lt_irrefl (0 : ℝ))]

/-! ## Claim C10 -/

/-- With the all-zero stream, `samplePhi` for `m = -1` returns the azimuth
`0` (both through the degenerate branch and through the scan, whose first
grid entry is `sin²(0) = 0`), consuming one draw. -/
theorem samplePhi_neg1_zero_stream (k : ℕ) :
    samplePhi (-1) 500 (fun _ => 0) k = (0, k + 1) := by
  unfold samplePhi
  rw [if_neg (by norm_num)]
  split_ifs with hs
  · norm_num
  · have h0 : phiProb (-1) 500 0 = 0 := by
      unfold phiProb
      norm_num
    have hc0 : phiCdfEntry (-1) 500 0 / phiCdfSum (-1) 500 = 0 := by
      unfold phiCdfEntry
      simp [h0]
    have hscan : firstLeAux (fun i => phiCdfEntry (-1) 500 i / phiCdfSum (-1) 500)
        (0 : ℝ) 0 500 = some 0 :=
      @firstLeAux_hit (fun i => phiCdfEntry (-1) 500 i / phiCdfSum (-1) 500) (0 : ℝ) 0 500
        (le_of_eq hc0.symm) (by norm_num)
    dsimp only
    rw [hscan]
    norm_num

/-- At azimuth `0`, the `(2, 1, -1)` orbital's angular factor
`√2·sin(|m|·φ)` vanishes, so the probability density is `0` for every radius
and polar angle. -/
theorem probabilityDensity_2_1_neg1_phi0 (r theta : ℝ) :
    probabilityDensity 2 1 (-1) r theta 0 = 0 := by
  unfold probabilityDensity probabilityDensityS waveFunctionS angularWaveFunctionS
    sphericalHarmonicS radialWaveFunctionS
  rw [if_pos (by decide)]
  dsimp only
  norm_num

/-- With the all-zero stream, every pilot draw of the `(2, 1, -1)` orbital
lands at azimuth `0`, where the density vanishes. -/
theorem pilotStep_2_1_neg1_zero_stream (k : ℕ) :
    (pilotStep 2 1 (-1) (fun _ => 0) k).1 = 0 := by
  unfold pilotStep
  dsimp only
  rw [samplePhi_neg1_zero_stream]
  push_cast
  exact probabilityDensity_2_1_neg1_phi0 _ _

/-- With the all-zero stream, the `(2, 1, -1)` pilot maximum is `0` after
any number of iterations. -/
theorem pilotLoop_2_1_neg1_zero_stream :
    ∀ i k, (pilotLoop 2 1 (-1) (fun _ => 0) i k).1 = 0 := by
  intro i
  induction i with
  | zero => intro k; rfl
  | succ i ih =>
    intro k
    show (if _ > _ then _ else _) = (0 : ℝ)
    rw [pilotStep_2_1_neg1_zero_stream, ih k]
    norm_num

/-- Claim C10: if the pilot pass observes a maximum probability density of
exactly `0`, `generateOrbitalParticles` still returns the full
clamped-count particle list, and the guarded division assigns every
particle the weight `0`. -/
theorem c10_zero_pilot_max_all_weights_zero (n l m : ℚ) (pc : ℤ) (g : Rng)
    (hv : validateQuantumNumbers n l m = true)
    (h0 : (pilotLoop ⌊n⌋ ⌊l⌋ ⌊m⌋ g
        (min 100 (max MIN_PARTICLE_COUNT (min pc MAX_PARTICLE_COUNT))).toNat 0).1 = 0) :
    ∃ ps, generateOrbitalParticles n l m pc g = some ps ∧
      ps.length = (max MIN_PARTICLE_COUNT (min pc MAX_PARTICLE_COUNT)).toNat ∧
      ∀ q ∈ ps, q.probability = 0 := by
  unfold generateOrbitalParticles
  rw [if_pos hv]
  dsimp only
  rw [h0]
  exact ⟨_, rfl, batchLoop_length _ _ _ _ _ _ _, batchLoop_weight_zero _ _ _ _ _ _⟩

/-- Witness for C10: the `(2, 1, -1)` orbital with the all-zero stream — all
100 pilot draws land on the `sin(|m|·φ) = 0` nodal azimuth, so the pilot
maximum is exactly `0`. -/
theorem c10_zero_pilot_max_all_weights_zero_witness :
    validateQuantumNumbers 2 1 (-1) = true ∧
    (pilotLoop ⌊(2 : ℚ)⌋ ⌊(1 : ℚ)⌋ ⌊(-1 : ℚ)⌋ (fun _ => 0)
        (min 100 (max MIN_PARTICLE_COUNT (min 5000 MAX_PARTICLE_COUNT))).toNat 0).1 = 0 ∧
    ∃ ps, generateOrbitalParticles 2 1 (-1) 5000 (fun _ => 0) = some ps ∧
      ps.length = (max MIN_PARTICLE_COUNT (min 5000 MAX_PARTICLE_COUNT)).toNat ∧
      ∀ q ∈ ps, q.probability = 0 := by
  have hf2 : ⌊(2 : ℚ)⌋ = 2 := by norm_num
  have hf1 : ⌊(1 : ℚ)⌋ = 1 := by norm_num
  have hfm : ⌊(-1 : ℚ)⌋ = -1 := by norm_num
  have hp : (pilotLoop ⌊(2 : ℚ)⌋ ⌊(1 : ℚ)⌋ ⌊(-1 : ℚ)⌋ (fun _ => 0)
      (min 100 (max MIN_PARTICLE_COUNT (min 5000 MAX_PARTICLE_COUNT))).toNat 0).1 = 0 := by
    rw [hf2, hf1, hfm]
    exact pilotLoop_2_1_neg1_zero_stream _ _
  exact ⟨by decide, hp,
    c10_zero_pilot_max_all_weights_zero 2 1 (-1) 5000 (fun _ => 0) (by decide) hp⟩

/-! ## Claim C1 — evaluation of the 1s orbital -/

/-- The 1s normalization constant `exp(0.5·(3·ln(2/a₀) − ln 2))`. -/
noncomputable def norm1s : ℝ := Real.exp (0.5 * (3 * Real.log (2 / BOHR_RADIUS) - Real.log 2))

/-- `Y(0,0) = sqrt(1/(4π))`. -/
noncomputable def y00 : ℝ := Real.sqrt (1 / (4 * Real.pi))

/-- For `r > 0`, the 1s radial wave function evaluates to
`norm1s · e^(-r/a₀)` (the Laguerre factor and the power term are `1`). -/
theorem radialWaveFunction_1s (r : ℝ) (hr : 0 < r) :
    radialWaveFunction 1 0 r = norm1s * Real.exp (-(r / BOHR_RADIUS)) := by
  unfold radialWaveFunction radialMain norm1s
  rw [if_pos (by decide), if_neg (by linarith), if_neg (by linarith : ¬(r = 0))]
  norm_num [logFactorial, laguerrePolynomial]
  ring

/-- The radial grid of `sampleRadius(1, 0, 1000)`:
`r_i = 0.01·a₀ + (i/1000)·(3·a₀ - 0.01·a₀)`. -/
noncomputable def r1Grid (i : ℕ) : ℝ :=
  0.01 * BOHR_RADIUS + ((i : ℝ) / 1000) * (3 * BOHR_RADIUS - 0.01 * BOHR_RADIUS)

/-- Every 1s grid radius is positive. -/
theorem r1Grid_pos (i : ℕ) : 0 < r1Grid i := by
  unfold r1Grid
  have h : (0 : ℝ) ≤ ((i : ℝ) / 1000) * (3 * BOHR_RADIUS - 0.01 * BOHR_RADIUS) := by
    apply mul_nonneg (by positivity)
    norm_num [BOHR_RADIUS]
  norm_num [BOHR_RADIUS] at h ⊢
  linarith

/-- Grid radii are bounded by `maxR = 3·a₀` for `i ≤ 1000`. -/
theorem r1Grid_le (i : ℕ) (hi : i ≤ 1000) : r1Grid i ≤ 3 * BOHR_RADIUS := by
  unfold r1Grid
  have h1 : ((i : ℝ) / 1000) ≤ 1 := by
    rw [div_le_one (by norm_num)]
    exact_mod_cast hi
  have h2 : (0 : ℝ) ≤ 3 * BOHR_RADIUS - 0.01 * BOHR_RADIUS := by norm_num [BOHR_RADIUS]
  nlinarith [mul_le_mul_of_nonneg_right h1 h2]

/-- The 1s radial grid probability in closed form. -/
theorem radialProb_1s (i : ℕ) :
    radialProb 1 0 1000 i =
      r1Grid i * r1Grid i *
        ((norm1s * Real.exp (-(r1Grid i / BOHR_RADIUS))) *
         (norm1s * Real.exp (-(r1Grid i / BOHR_RADIUS)))) := by
  unfold radialProb
  have hcast : (((1 : ℤ) : ℝ)) = (1 : ℝ) := by norm_num
  have harg : 0.01 * BOHR_RADIUS + ((i : ℝ) / (1000 : ℕ)) * (3 * ((1 : ℤ) : ℝ) ^ 2 *
      BOHR_RADIUS - 0.01 * BOHR_RADIUS) = r1Grid i := by
    unfold r1Grid
    norm_num
  dsimp only
  rw [harg]
  rw [show ((1 : ℤ) : ℚ) = (1 : ℚ) by norm_num, show ((0 : ℤ) : ℚ) = (0 : ℚ) by norm_num]
  rw [radialWaveFunction_1s _ (r1Grid_pos i)]

/-- The 1s normalization constant is positive. -/
theorem norm1s_pos : 0 < norm1s := Real.exp_pos _

/-- `Y(0,0)` is positive. -/
theorem y00_pos : 0 < y00 := by
  unfold y00
  have := Real.pi_pos
  positivity

/-- Every 1s radial grid probability is strictly positive. -/
theorem radialProb_1s_pos (i : ℕ) : 0 < radialProb 1 0 1000 i := by
  rw [radialProb_1s]
  have := r1Grid_pos i
  unfold norm1s
  positivity

/-- The 1s radial CDF sum is strictly positive. -/
theorem radialCdfSum_1s_pos : 0 < radialCdfSum 1 0 1000 := by
  have h0 : 0 < radialProb 1 0 1000 0 := radialProb_1s_pos 0
  have hle : radialProb 1 0 1000 0 ≤ radialCdfSum 1 0 1000 :=
    Finset.single_le_sum (fun t _ => radialProb_nonneg 1 0 1000 t) (by simp)
  linarith

/-- Each 1s grid probability is at most `(3a₀)²·norm1s²` (radius bounded by
`maxR`, exponential factor at most `1`). -/
theorem radialProb_1s_le (i : ℕ) (hi : i < 1000) :
    radialProb 1 0 1000 i ≤ (3 * BOHR_RADIUS) * (3 * BOHR_RADIUS) * (norm1s * norm1s) := by
  rw [radialProb_1s]
  have h1 : 0 < r1Grid i := r1Grid_pos i
  have h2 : r1Grid i ≤ 3 * BOHR_RADIUS := r1Grid_le i (by omega)
  have hB : (0 : ℝ) ≤ r1Grid i / BOHR_RADIUS := by
    have : (0 : ℝ) < BOHR_RADIUS := by norm_num [BOHR_RADIUS]
    positivity
  have h3 : Real.exp (-(r1Grid i / BOHR_RADIUS)) ≤ 1 := by
    calc Real.exp (-(r1Grid i / BOHR_RADIUS)) ≤ Real.exp 0 :=
          Real.exp_le_exp.mpr (by linarith)
    _ = 1 := Real.exp_zero
  have h4 : 0 < Real.exp (-(r1Grid i / BOHR_RADIUS)) := Real.exp_pos _
  have hN : 0 < norm1s := norm1s_pos
  have hfac : norm1s * Real.exp (-(r1Grid i / BOHR_RADIUS)) ≤ norm1s :=
    mul_le_of_le_one_right (le_of_lt hN) h3
  have hfacpos : 0 < norm1s * Real.exp (-(r1Grid i / BOHR_RADIUS)) := mul_pos hN h4
  have hrr : r1Grid i * r1Grid i ≤ (3 * BOHR_RADIUS) * (3 * BOHR_RADIUS) :=
    mul_le_mul h2 h2 (le_of_lt h1) (by linarith)
  have hee : (norm1s * Real.exp (-(r1Grid i / BOHR_RADIUS))) *
      (norm1s * Real.exp (-(r1Grid i / BOHR_RADIUS))) ≤ norm1s * norm1s :=
    mul_le_mul hfac hfac (le_of_lt hfacpos) (le_of_lt hN)
  exact mul_le_mul hrr hee (le_of_lt (mul_pos hfacpos hfacpos)) (by norm_num [BOHR_RADIUS])

/-- The 1s radial CDF sum is at most `1000` times the per-entry bound. -/
theorem radialCdfSum_1s_le :
    radialCdfSum 1 0 1000 ≤
      1000 * ((3 * BOHR_RADIUS) * (3 * BOHR_RADIUS) * (norm1s * norm1s)) := by
  unfold radialCdfSum
  have h := Finset.sum_le_card_nsmul (Finset.range 1000) (radialProb 1 0 1000)
    ((3 * BOHR_RADIUS) * (3 * BOHR_RADIUS) * (norm1s * norm1s))
    (fun i hi => radialProb_1s_le i (Finset.mem_range.mp hi))
  simpa using h

/-- The last 1s grid probability is at least `r₉₉₉²·norm1s²/404`
(`exp(-2r₉₉₉/a₀) ≥ exp(-6) > 1/404`). -/
theorem radialProb_1s_999_lb :
    r1Grid 999 * r1Grid 999 * (norm1s * norm1s) * (1 / 404) ≤ radialProb 1 0 1000 999 := by
  rw [radialProb_1s]
  have hexp6 : Real.exp 6 < 404 := by
    have h1 : Real.exp 1 < 2.7182818286 := Real.exp_one_lt_d9
    have h6 : Real.exp 6 = Real.exp 1 ^ 6 := by
      rw [Real.exp_one_pow]
      norm_num
    have hp : Real.exp 1 ^ 6 < 2.7182818286 ^ 6 :=
      pow_lt_pow_left h1 (le_of_lt (Real.exp_pos 1)) (by norm_num)
    rw [h6]
    calc Real.exp 1 ^ 6 < 2.7182818286 ^ 6 := hp
    _ < 404 := by norm_num
  have hee : Real.exp (-(r1Grid 999 / BOHR_RADIUS)) * Real.exp (-(r1Grid 999 / BOHR_RADIUS)) =
      Real.exp (-(r1Grid 999 / BOHR_RADIUS) + -(r1Grid 999 / BOHR_RADIUS)) :=
    (Real.exp_add _ _).symm
  have harg : (-(6 : ℝ)) ≤ -(r1Grid 999 / BOHR_RADIUS) + -(r1Grid 999 / BOHR_RADIUS) := by
    unfold r1Grid
    norm_num [BOHR_RADIUS]
  have hmono : Real.exp (-(6 : ℝ)) ≤
      Real.exp (-(r1Grid 999 / BOHR_RADIUS) + -(r1Grid 999 / BOHR_RADIUS)) :=
    Real.exp_le_exp.mpr harg
  have hinv : (1 : ℝ) / 404 ≤ Real.exp (-(6 : ℝ)) := by
    rw [Real.exp_neg]
    rw [div_le_iff (by norm_num)]
    rw [inv_mul_eq_div, le_div_iff (Real.exp_pos 6)]
    linarith
  have hkey : (1 : ℝ) / 404 ≤
      Real.exp (-(r1Grid 999 / BOHR_RADIUS)) * Real.exp (-(r1Grid 999 / BOHR_RADIUS)) := by
    rw [hee]
    linarith
  have hrrNN : (0 : ℝ) ≤ r1Grid 999 * r1Grid 999 * (norm1s * norm1s) := by
    have := r1Grid_pos 999
    have := norm1s_pos
    positivity
  nlinarith [mul_le_mul_of_nonneg_left hkey hrrNN]

/-- The normalized 1s CDF at index `998` is below `1 - 10⁻⁷`: the last grid
entry carries more than `10⁻⁷` of the total mass. -/
theorem radialCdf_1s_998_lt :
    radialCdfEntry 1 0 1000 998 / radialCdfSum 1 0 1000 < 1 - 1 / 10000000 := by
  have hS : 0 < radialCdfSum 1 0 1000 := radialCdfSum_1s_pos
  have hsplit : radialCdfSum 1 0 1000 = radialCdfEntry 1 0 1000 998 + radialProb 1 0 1000 999 := by
    unfold radialCdfSum radialCdfEntry
    rw [show (1000 : ℕ) = 999 + 1 by norm_num, Finset.sum_range_succ]
  have hub := radialCdfSum_1s_le
  have hlb := radialProb_1s_999_lb
  have hN : 0 < norm1s := norm1s_pos
  have hN2 : 0 < norm1s * norm1s := mul_pos hN hN
  have hnum : (1 / 10000000 : ℝ) *
      (1000 * ((3 * BOHR_RADIUS) * (3 * BOHR_RADIUS) * (norm1s * norm1s))) <
      r1Grid 999 * r1Grid 999 * (norm1s * norm1s) * (1 / 404) := by
    have hcoef : (1 / 10000000 : ℝ) * (1000 * ((3 * BOHR_RADIUS) * (3 * BOHR_RADIUS))) <
        r1Grid 999 * r1Grid 999 * (1 / 404) := by
      unfold r1Grid
      norm_num [BOHR_RADIUS]
    nlinarith [mul_lt_mul_of_pos_right hcoef hN2]
  have hkey : (1 / 10000000 : ℝ) * radialCdfSum 1 0 1000 < radialProb 1 0 1000 999 := by
    have h1 : (1 / 10000000 : ℝ) * radialCdfSum 1 0 1000 ≤
        (1 / 10000000 : ℝ) *
          (1000 * ((3 * BOHR_RADIUS) * (3 * BOHR_RADIUS) * (norm1s * norm1s))) :=
      mul_le_mul_of_nonneg_left hub (by norm_num)
    linarith
  rw [div_lt_iff hS]
  nlinarith

/-- With a draw of `1 - 10⁻⁷`, `sampleRadius(1, 0, 1000)` scans past every
index up to `998` and returns the last grid radius `r₉₉₉`. -/
theorem sampleRadius_1s_big (g : Rng) (k : ℕ) (hk : g k = 1 - 1 / 10000000) :
    sampleRadius 1 0 1000 g k = (r1Grid 999, k + 1) := by
  have hS : 0 < radialCdfSum 1 0 1000 := radialCdfSum_1s_pos
  unfold sampleRadius
  rw [if_neg (ne_of_gt hS)]
  dsimp only
  rw [hk]
  have hscan : firstLeAux (fun i => radialCdfEntry 1 0 1000 i / radialCdfSum 1 0 1000)
      (1 - 1 / 10000000 : ℝ) 0 1000 = some 999 := by
    apply firstLeAux_exact 1000 0 999 (by omega) (by omega)
    · intro t ht0 ht
      rw [not_le]
      calc radialCdfEntry 1 0 1000 t / radialCdfSum 1 0 1000
          ≤ radialCdfEntry 1 0 1000 998 / radialCdfSum 1 0 1000 :=
            (div_le_div_right hS).mpr (radialCdfEntry_mono 1 0 1000 (by omega))
      _ < 1 - 1 / 10000000 := radialCdf_1s_998_lt
    · have h999 : radialCdfEntry 1 0 1000 999 = radialCdfSum 1 0 1000 := by
        unfold radialCdfEntry radialCdfSum
        norm_num
      show (1 - 1 / 10000000 : ℝ) ≤ radialCdfEntry 1 0 1000 999 / radialCdfSum 1 0 1000
      rw [h999, div_self (ne_of_gt hS)]
      norm_num
  rw [hscan]
  unfold r1Grid
  norm_num

/-- With a draw of `0`, `sampleRadius(1, 0, 1000)` stops at the first grid
point `minR = 0.01·a₀`. -/
theorem sampleRadius_1s_zero (g : Rng) (k : ℕ) (hk : g k = 0) :
    sampleRadius 1 0 1000 g k = (0.01 * BOHR_RADIUS, k + 1) := by
  have hS : 0 < radialCdfSum 1 0 1000 := radialCdfSum_1s_pos
  unfold sampleRadius
  rw [if_neg (ne_of_gt hS)]
  dsimp only
  rw [hk]
  have he0 : (0 : ℝ) ≤ radialCdfEntry 1 0 1000 0 / radialCdfSum 1 0 1000 :=
    div_nonneg (Finset.sum_nonneg fun t _ => radialProb_nonneg 1 0 1000 t) (le_of_lt hS)
  have hscan : firstLeAux (fun i => radialCdfEntry 1 0 1000 i / radialCdfSum 1 0 1000)
      (0 : ℝ) 0 1000 = some 0 :=
    @firstLeAux_hit (fun i => radialCdfEntry 1 0 1000 i / radialCdfSum 1 0 1000) (0 : ℝ)
      0 1000 he0 (by norm_num)
  rw [hscan]
  norm_num

/-- `P₀⁰ = 1`. -/
theorem legendrePolynomial_0_0 (x : ℝ) : legendrePolynomial 0 0 x = 1 := by
  unfold legendrePolynomial
  norm_num [legendrePmm]

/-- The first polar grid probability for `(l, m) = (0, 0)` is `sin(0.001)`,
which is positive. -/
theorem thetaProb_0_0_first : 0 < thetaProb 0 0 500 0 := by
  unfold thetaProb
  dsimp only
  rw [abs_zero, legendrePolynomial_0_0]
  have hpi : (3 : ℝ) < Real.pi := Real.pi_gt_three
  have hs : 0 < Real.sin (0.001 + ((0 : ℕ) : ℝ) / (500 : ℕ) * (Real.pi - 2 * 0.001)) := by
    apply Real.sin_pos_of_pos_of_lt_pi <;> norm_num
    · linarith
  nlinarith

/-- The `(0, 0)` polar CDF sum is strictly positive. -/
theorem thetaCdfSum_0_0_pos : 0 < thetaCdfSum 0 0 500 := by
  have hle : thetaProb 0 0 500 0 ≤ thetaCdfSum 0 0 500 :=
    Finset.single_le_sum
      (fun t ht => @thetaProb_nonneg 0 0 500 t (by have := Finset.mem_range.mp ht; omega))
      (Finset.mem_range.mpr (by norm_num))
  have := thetaProb_0_0_first
  linarith

/-- With a draw of `0`, `sampleTheta(0, 0, 500)` returns the first grid angle
`ε = 0.001`. -/
theorem sampleTheta_0_0_zero (g : Rng) (k : ℕ) (hk : g k = 0) :
    sampleTheta 0 0 500 g k = (0.001, k + 1) := by
  have hS : 0 < thetaCdfSum 0 0 500 := thetaCdfSum_0_0_pos
  unfold sampleTheta
  rw [if_neg (ne_of_gt hS)]
  dsimp only
  rw [hk]
  have he0 : (0 : ℝ) ≤ thetaCdfEntry 0 0 500 0 / thetaCdfSum 0 0 500 :=
    div_nonneg
      (Finset.sum_nonneg fun t ht =>
        thetaProb_nonneg 0 0 (by have := Finset.mem_range.mp ht; omega))
      (le_of_lt hS)
  have hscan : firstLeAux (fun i => thetaCdfEntry 0 0 500 i / thetaCdfSum 0 0 500)
      (0 : ℝ) 0 500 = some 0 :=
    @firstLeAux_hit (fun i => thetaCdfEntry 0 0 500 i / thetaCdfSum 0 0 500) (0 : ℝ)
      0 500 he0 (by norm_num)
  rw [hscan]
  norm_num

/-- With a draw of `0`, `samplePhi(0, 500)` returns azimuth `0` (uniform
branch). -/
theorem samplePhi_m0_zero (g : Rng) (k : ℕ) (hk : g k = 0) :
    samplePhi 0 500 g k = (0, k + 1) := by
  unfold samplePhi
  rw [if_pos rfl]
  rw [hk]
  norm_num

/-- For `r > 0`, the `(1, 0, 0)` probability density is
`(norm1s·e^(-r/a₀)·Y₀₀)²`, independent of the angles. -/
theorem probabilityDensity_1s (r theta phi : ℝ) (hr : 0 < r) :
    probabilityDensity 1 0 0 r theta phi =
      (norm1s * Real.exp (-(r / BOHR_RADIUS)) * y00) *
      (norm1s * Real.exp (-(r / BOHR_RADIUS)) * y00) := by
  unfold probabilityDensity probabilityDensityS waveFunctionS angularWaveFunctionS
    sphericalHarmonicS radialWaveFunctionS y00
  rw [if_pos (by decide)]
  dsimp only
  rw [show ⌊(0 : ℚ)⌋ = (0 : ℤ) by norm_num]
  rw [radialWaveFunction_1s r hr]
  norm_num [factorialS, legendrePolynomial_0_0, factLoop]

/-- The adversarial stream for claim C1: the 100 pilot radius draws (indices
`0, 3, ..., 297`) are `1 - 10⁻⁷` (landing at the far, low-density end of the
radial grid); every other draw is `0`. -/
noncomputable def gCE : Rng := fun k => if k < 300 ∧ k % 3 = 0 then 1 - 1 / 10000000 else 0

/-- The density every pilot draw observes: at radius `r₉₉₉`. -/
noncomputable def dBig1s : ℝ :=
  (norm1s * Real.exp (-(r1Grid 999 / BOHR_RADIUS)) * y00) *
  (norm1s * Real.exp (-(r1Grid 999 / BOHR_RADIUS)) * y00)

/-- The density every batch draw observes: at radius `minR = 0.01·a₀`. -/
noncomputable def dMin1s : ℝ :=
  (norm1s * Real.exp (-(0.01 * BOHR_RADIUS / BOHR_RADIUS)) * y00) *
  (norm1s * Real.exp (-(0.01 * BOHR_RADIUS / BOHR_RADIUS)) * y00)

/-- Pilot radius draws read `1 - 10⁻⁷`. -/
theorem gCE_big (i : ℕ) (hi : i < 100) : gCE (3 * i) = 1 - 1 / 10000000 := by
  unfold gCE
  rw [if_pos ⟨by omega, by omega⟩]

/-- All other draws read `0`. -/
theorem gCE_zero (k : ℕ) (hk : ¬(k < 300 ∧ k % 3 = 0)) : gCE k = 0 := by
  unfold gCE
  rw [if_neg hk]

/-- The pilot density is positive. -/
theorem dBig1s_pos : 0 < dBig1s := by
  unfold dBig1s
  have h1 : 0 < norm1s * Real.exp (-(r1Grid 999 / BOHR_RADIUS)) * y00 :=
    mul_pos (mul_pos norm1s_pos (Real.exp_pos _)) y00_pos
  exact mul_pos h1 h1

/-- The batch density strictly exceeds the pilot density (the 1s density
decreases with radius). -/
theorem dBig1s_lt_dMin1s : dBig1s < dMin1s := by
  unfold dBig1s dMin1s
  have hN := norm1s_pos
  have hy := y00_pos
  have hlt : Real.exp (-(r1Grid 999 / BOHR_RADIUS)) <
      Real.exp (-(0.01 * BOHR_RADIUS / BOHR_RADIUS)) := by
    apply Real.exp_lt_exp.mpr
    unfold r1Grid
    norm_num [BOHR_RADIUS]
  have h1 : 0 < norm1s * Real.exp (-(r1Grid 999 / BOHR_RADIUS)) * y00 :=
    mul_pos (mul_pos hN (Real.exp_pos _)) y00_pos
  have h2 : norm1s * Real.exp (-(r1Grid 999 / BOHR_RADIUS)) * y00 <
      norm1s * Real.exp (-(0.01 * BOHR_RADIUS / BOHR_RADIUS)) * y00 :=
    mul_lt_mul_of_pos_right (mul_lt_mul_of_pos_left hlt hN) hy
  exact mul_self_lt_mul_self h1.le h2

/-- One pilot iteration of the `(1, 0, 0)` orbital under `gCE`, starting at
draw index `3i`: radius `r₉₉₉`, angles `(0.001, 0)`, density `dBig1s`, three
draws consumed. -/
theorem pilotStep_CE (i : ℕ) (hi : i < 100) :
    pilotStep 1 0 0 gCE (3 * i) = (dBig1s, 3 * i + 3) := by
  unfold pilotStep
  rw [sampleRadius_1s_big gCE (3 * i) (gCE_big i hi)]
  dsimp only
  rw [sampleTheta_0_0_zero gCE (3 * i + 1) (gCE_zero _ (by omega))]
  dsimp only
  rw [samplePhi_m0_zero gCE (3 * i + 2) (gCE_zero _ (by omega))]
  dsimp only
  rw [show ((1 : ℤ) : ℚ) = (1 : ℚ) by norm_num, show ((0 : ℤ) : ℚ) = (0 : ℚ) by norm_num]
  rw [probabilityDensity_1s _ _ _ (r1Grid_pos 999)]
  rfl

/-- The pilot fold under `gCE`: after `i ≤ 100` iterations the maximum is
`dBig1s` (for `i ≥ 1`) and `3i` draws are consumed. -/
theorem pilotLoop_CE : ∀ i, i ≤ 100 →
    pilotLoop 1 0 0 gCE i 0 = ((if i = 0 then 0 else dBig1s), 3 * i) := by
  intro i
  induction i with
  | zero => intro _; simp [pilotLoop]
  | succ i ih =>
    intro hi
    have hih := ih (by omega)
    rw [pilotLoop, hih]
    dsimp only
    rw [pilotStep_CE i (by omega)]
    dsimp only
    rcases Nat.eq_zero_or_pos i with rfl | hpos
    · rw [if_pos rfl, if_pos dBig1s_pos, if_neg (by omega : ¬ 0 + 1 = 0)]
    · rw [if_neg (by omega : ¬ i = 0), if_neg (lt_irrefl dBig1s),
        if_neg (by omega : ¬ i + 1 = 0)]
      refine congrArg _ ?_
      omega

/-- The first batch particle under `gCE` (draw indices `300, 301, 302`, all
zero) carries weight `dMin1s / dBig1s`. -/
theorem batchStep_CE :
    (batchStep 1 0 0 dBig1s gCE 300).1.probability = dMin1s / dBig1s := by
  unfold batchStep
  rw [sampleRadius_1s_zero gCE 300 (gCE_zero 300 (by omega))]
  dsimp only
  rw [sampleTheta_0_0_zero gCE 301 (gCE_zero 301 (by omega))]
  dsimp only
  rw [samplePhi_m0_zero gCE 302 (gCE_zero 302 (by omega))]
  dsimp only
  rw [show ((1 : ℤ) : ℚ) = (1 : ℚ) by norm_num, show ((0 : ℤ) : ℚ) = (0 : ℚ) by norm_num]
  rw [probabilityDensity_1s _ _ _ (by norm_num [BOHR_RADIUS] : (0 : ℝ) < 0.01 * BOHR_RADIUS)]
  rw [if_pos dBig1s_pos]
  rfl

/-- The particle built from the loop's first iteration is in the output. -/
theorem batchLoop_first_mem (n l m : ℤ) (p : ℝ) (g : Rng) :
    ∀ i k, 1 ≤ i → (batchStep n l m p g k).1 ∈ (batchLoop n l m p g i k).1 := by
  intro i
  induction i with
  | zero => intro k h; omega
  | succ i ih =>
    intro k h
    rcases Nat.eq_zero_or_pos i with rfl | hpos
    · simp [batchLoop]
    · rw [batchLoop]
      dsimp only
      exact List.mem_append_left _ (ih k hpos)

/-- Counterexample to C1 as stated: for the valid state `(1, 0, 0)` with
requested count `5000` and the stream `gCE`, the first generated particle's
weight is `dMin1s / dBig1s > 1` — the pilot maximum underestimates the true
maximum density, so a weight escapes `[0, 1]`. -/
theorem c1_weight_above_one_counterexample :
    ∃ ps, generateOrbitalParticles 1 0 0 5000 gCE = some ps ∧
      ∃ q ∈ ps, 1 < q.probability := by
  unfold generateOrbitalParticles
  rw [if_pos (by decide)]
  dsimp only
  rw [show ⌊(1 : ℚ)⌋ = (1 : ℤ) by norm_num, show ⌊(0 : ℚ)⌋ = (0 : ℤ) by norm_num]
  rw [show (min 100 (max MIN_PARTICLE_COUNT (min 5000 MAX_PARTICLE_COUNT))).toNat = 100 by
    norm_num [MIN_PARTICLE_COUNT, MAX_PARTICLE_COUNT]
    decide]
  rw [show (max MIN_PARTICLE_COUNT (min 5000 MAX_PARTICLE_COUNT)).toNat = 5000 by
    norm_num [MIN_PARTICLE_COUNT, MAX_PARTICLE_COUNT]
    decide]
  rw [pilotLoop_CE 100 (le_refl 100)]
  dsimp only
  rw [show (if (100 : ℕ) = 0 then (0 : ℝ) else dBig1s) = dBig1s from by norm_num]
  refine ⟨_, rfl, (batchStep 1 0 0 dBig1s gCE 300).1,
    batchLoop_first_mem 1 0 0 dBig1s gCE 5000 300 (by norm_num), ?_⟩
  rw [batchStep_CE]
  exact (one_lt_div dBig1s_pos).mpr dBig1s_lt_dMin1s

/-- Claim C1 (amended): for every valid state and every requested count,
`generateOrbitalParticles` returns exactly
`clamp(particleCount, MIN_PARTICLE_COUNT, MAX_PARTICLE_COUNT)` particles —
a count outside the bounds is clamped, never rejected — and every weight is
nonnegative.  (Weights are not bounded by `1`:
see `c1_weight_above_one_counterexample`.) -/
theorem c1_clamped_count_nonneg_weights (n l m : ℚ) (pc : ℤ) (g : Rng)
    (hv : validateQuantumNumbers n l m = true) :
    ∃ ps, generateOrbitalParticles n l m pc g = some ps ∧
      ps.length = (max MIN_PARTICLE_COUNT (min pc MAX_PARTICLE_COUNT)).toNat ∧
      ∀ q ∈ ps, 0 ≤ q.probability := by
  unfold generateOrbitalParticles
  rw [if_pos hv]
  exact ⟨_, rfl, batchLoop_length _ _ _ _ _ _ _, batchLoop_weight_nonneg _ _ _ _ _ _ _⟩

/-- Witness for the amended C1: the 1s state with a requested count of `1`,
which is below the configured minimum and therefore clamped to `5000`. -/
theorem c1_clamped_count_nonneg_weights_witness :
    validateQuantumNumbers 1 0 0 = true ∧
    ∃ ps, generateOrbitalParticles 1 0 0 1 (fun _ => 0) = some ps ∧
      ps.length = (max MIN_PARTICLE_COUNT (min 1 MAX_PARTICLE_COUNT)).toNat ∧
      ∀ q ∈ ps, 0 ≤ q.probability :=
  ⟨by decide, c1_clamped_count_nonneg_weights 1 0 0 1 (fun _ => 0) (by decide)⟩
